import Mathlib

/-!
# myshell: history ring, process registry, signal dispatch and pipeline execution

A shallow embedding of `src/myshell.c`.  Global C variables become fields of
explicit state records, `int` values are `Int`, `NULL`-able pointers are
`Option`, and every result of a system call is taken from an oracle record so
that each function is a pure, executable function of its inputs.  Heap
management (`malloc`, `strdup`, `free`, `freeCmdLines`) is not represented.
-/

namespace MyShell

/-! ## History ring (`myshell.c` lines 14, 29-99) -/

/-- Capacity of the history queue (`#define HISTLEN 20`). -/
def HISTLEN : Int := 20

/-- The history globals: the slot array `history[HISTLEN]` (a `NULL` slot is
`none`) together with `newest`, `oldest` and `hist_count`. -/
structure History where
  history : List (Option String)
  newest : Int
  oldest : Int
  hist_count : Int
deriving DecidableEq, Repr

/-- Initial values of the history globals: all slots `NULL`, `newest = -1`,
`oldest = 0`, `hist_count = 0`. -/
def History.init : History :=
  { history := List.replicate 20 none, newest := -1, oldest := 0, hist_count := 0 }

/-- Array read `history[i]`. -/
def History.slot (h : History) (i : Int) : Option String :=
  (h.history.getD i.toNat none)

/-- The function `addToHistory(command)`. -/
def addToHistory (h : History) (command : String) : History :=
  if h.hist_count < HISTLEN then
    let newest := Int.tmod (h.newest + 1) HISTLEN
    { h with newest := newest,
             history := h.history.set newest.toNat (some command),
             hist_count := h.hist_count + 1 }
  else
    { h with history := h.history.set h.oldest.toNat (some command),
             newest := h.oldest,
             oldest := Int.tmod (h.oldest + 1) HISTLEN }

/-- The function `getHistoryCommand(index)`. -/
def getHistoryCommand (h : History) (index : Int) : Option String :=
  if h.hist_count = 0 then none
  else if index < 0 ∨ index ≥ HISTLEN ∨ h.slot index = none then none
  else h.slot index

/-- Slots visited by the loop of `printHistory`, as (index, entry) pairs:
`current_idx = (oldest + i) % HISTLEN` for `i = 0 .. hist_count - 1`. -/
def printHistoryRows (h : History) : List (Int × Option String) :=
  (List.range h.hist_count.toNat).map fun (i : Nat) =>
    let current_idx := Int.tmod (h.oldest + (i : Int)) HISTLEN
    (current_idx, h.slot current_idx)

/-- The recall of `!!` in `main`: an error (`none`) when `hist_count == 0`,
otherwise `history[newest]`. -/
def recallLast (h : History) : Option String :=
  if h.hist_count = 0 then none else h.slot h.newest

/-- History after adding the commands of `cs` in order, starting from `h`. -/
def addAll (h : History) (cs : List String) : History :=
  cs.foldl addToHistory h

/-! ## Parsed command and process registry (`myshell.c` lines 16-27, 101-187) -/

/-- Modelled from the spec: the parsed-command record `cmdLine` of
`LineParser.h`, which is not part of the sources at hand.  It exposes an
ordered argument vector, its length `argCount`, optional input and output
redirect paths, the blocking flag and an optional pipeline continuation
`next`. -/
inductive cmdLine where
  | mk (arguments : List String) (argCount : Int)
      (inputRedirect outputRedirect : Option String) (blocking : Bool)
      (next : Option cmdLine)
deriving Repr

namespace cmdLine

/-- Field `arguments`. -/
def arguments : cmdLine → List String
  | mk a _ _ _ _ _ => a

/-- Field `argCount`. -/
def argCount : cmdLine → Int
  | mk _ n _ _ _ _ => n

/-- Field `inputRedirect` (`none` is `NULL`). -/
def inputRedirect : cmdLine → Option String
  | mk _ _ i _ _ _ => i

/-- Field `outputRedirect` (`none` is `NULL`). -/
def outputRedirect : cmdLine → Option String
  | mk _ _ _ o _ _ => o

/-- Field `blocking`. -/
def blocking : cmdLine → Bool
  | mk _ _ _ _ b _ => b

/-- Field `next` (`none` is `NULL`). -/
def next : cmdLine → Option cmdLine
  | mk _ _ _ _ _ n => n

/-- Array read `arguments[i]`. -/
def arg (c : cmdLine) (i : Nat) : String :=
  c.arguments.getD i ""

end cmdLine

/-- Status macro `TERMINATED`. -/
def TERMINATED : Int := -1
/-- Status macro `RUNNING`. -/
def RUNNING : Int := 1
/-- Status macro `SUSPENDED`. -/
def SUSPENDED : Int := 0

/-- One node of the process list (`struct process`); the `next` pointer is the
tail of the Lean list holding the node. -/
structure process where
  cmd : cmdLine
  pid : Int
  status : Int
deriving Repr

/-- The function `addProcess`: prepend a node in state `RUNNING`. -/
def addProcess (process_list : List process) (cmd : cmdLine) (pid : Int) : List process :=
  { cmd := cmd, pid := pid, status := RUNNING } :: process_list

/-- The function `updateProcessStatus`: walk the list and overwrite the status
of the first node whose pid matches, then return. -/
def updateProcessStatus : List process → Int → Int → List process
  | [], _, _ => []
  | curr :: rest, pid, status =>
    if curr.pid = pid then { curr with status := status } :: rest
    else curr :: updateProcessStatus rest pid status

/-- Classification of the status word filled in by `waitpid`; the classes are
those told apart by `WIFEXITED`, `WIFSIGNALED`, `WIFSTOPPED` and
`WIFCONTINUED`, which POSIX makes mutually exclusive. -/
inductive WaitStatus where
  | exited | signaled | stopped | continued | other
deriving DecidableEq, Repr

/-- Outcome of one call `waitpid(pid, &status, WNOHANG | WUNTRACED | WCONTINUED)`:
the return value and the status word. -/
structure Probe where
  result : Int
  status : WaitStatus
deriving DecidableEq, Repr

/-- Test `WIFEXITED(status)`. -/
def WIFEXITED (s : WaitStatus) : Bool := s = WaitStatus.exited
/-- Test `WIFSIGNALED(status)`. -/
def WIFSIGNALED (s : WaitStatus) : Bool := s = WaitStatus.signaled
/-- Test `WIFSTOPPED(status)`. -/
def WIFSTOPPED (s : WaitStatus) : Bool := s = WaitStatus.stopped
/-- Test `WIFCONTINUED(status)`. -/
def WIFCONTINUED (s : WaitStatus) : Bool := s = WaitStatus.continued

/-- Body of the loop of `updateProcessList` for one node, given the outcome
of its probe. -/
def updateNode (pr : Probe) (curr : process) : process :=
  if pr.result = -1 then { curr with status := TERMINATED }
  else if pr.result ≠ 0 then
    if WIFEXITED pr.status || WIFSIGNALED pr.status then { curr with status := TERMINATED }
    else if WIFSTOPPED pr.status then { curr with status := SUSPENDED }
    else if WIFCONTINUED pr.status then { curr with status := RUNNING }
    else curr
  else curr

/-- The loop of `updateProcessList` from the `i`-th node on; `probe k` is the
outcome of the probe issued for the `k`-th node of the walk. -/
def updateProcessListFrom (probe : Nat → Probe) : Nat → List process → List process
  | _, [] => []
  | i, curr :: rest => updateNode (probe i) curr :: updateProcessListFrom probe (i + 1) rest

/-- The function `updateProcessList`. -/
def updateProcessList (probe : Nat → Probe) (process_list : List process) : List process :=
  updateProcessListFrom probe 0 process_list

/-- What the calling process does, in order: text written to the standard
streams and the process-control system calls it issues.  The non-blocking
probes of `updateProcessList` are not recorded; their outcomes are inputs. -/
inductive Event where
  | printf (text : String)
  | eprintf (text : String)
  | perror (text : String)
  | kill (pid sig : Int)
  | pipe
  | fork
  | close (fd : Int)
  | dup (fd : Int)
  | dup2 (oldfd newfd : Int)
  | openRd (path : String)
  | openWr (path : String)
  | execvp (file : String) (argv : List String)
  | waitpid (pid : Int)
  | signalDfl (sig : Int)
  | setpgid
  | chdir (dir : Option String)
deriving DecidableEq, Repr

/-- The label chosen for `status_str` in `printProcessList`. -/
def status_str (status : Int) : String :=
  if status = RUNNING then "Running"
  else if status = SUSPENDED then "Suspended"
  else "Terminated"

/-- The header line printed by `printProcessList`. -/
def procHeader : Event := Event.printf "PID\t\tCommand\t\tSTATUS\n"

/-- The row printed for one node by `printProcessList`. -/
def procRow (curr : process) : Event :=
  Event.printf (toString curr.pid ++ "\t\t" ++ curr.cmd.arg 0 ++ "\t\t"
    ++ status_str curr.status ++ "\n")

/-- The print-and-prune loop of `printProcessList`: every node is printed, and
a node whose status is `TERMINATED` is unlinked. -/
def pruneWalk : List process → List process × List Event
  | [] => ([], [])
  | curr :: rest =>
    let r := pruneWalk rest
    if curr.status = TERMINATED then (r.1, procRow curr :: r.2)
    else (curr :: r.1, procRow curr :: r.2)

/-- The function `printProcessList`: refresh, print the header, then print and
prune. -/
def printProcessList (probe : Nat → Probe) (process_list : List process) :
    List process × List Event :=
  let r := pruneWalk (updateProcessList probe process_list)
  (r.1, procHeader :: r.2)

/-! ## Signal dispatch (`myshell.c` lines 189-210) -/

/-- Signal number `SIGINT` (Linux value). -/
def SIGINT : Int := 2
/-- Signal number `SIGQUIT` (Linux value). -/
def SIGQUIT : Int := 3
/-- Signal number `SIGCHLD` (Linux value). -/
def SIGCHLD : Int := 17
/-- Signal number `SIGCONT` (Linux value). -/
def SIGCONT : Int := 18
/-- Signal number `SIGSTOP` (Linux value). -/
def SIGSTOP : Int := 19
/-- Signal number `SIGTSTP` (Linux value). -/
def SIGTSTP : Int := 20
/-- Signal number `SIGTTIN` (Linux value). -/
def SIGTTIN : Int := 21
/-- Signal number `SIGTTOU` (Linux value). -/
def SIGTTOU : Int := 22

/-- The C library test `isspace` in the C locale. -/
def isspace (c : Char) : Bool :=
  c = ' ' || c = '\t' || c = '\n' || c = '\x0b' || c = '\x0c' || c = '\r'

/-- Digit loop of `strtol` in base 10: accumulate decimal digits until the
first other character. -/
def atoiDigits (acc : Int) : List Char → Int
  | [] => acc
  | c :: cs => if c.isDigit then atoiDigits (acc * 10 + ((c.toNat : Int) - 48)) cs else acc

/-- Largest value of a C `long` (64 bits on Linux). -/
def LONG_MAX : Int := 9223372036854775807
/-- Smallest value of a C `long` (64 bits on Linux). -/
def LONG_MIN : Int := -9223372036854775808

/-- The C library function `strtol(s, NULL, 10)`: skip leading white space,
read an optional sign and the decimal digits that follow; a value outside the
range of `long` is replaced by `LONG_MAX` or `LONG_MIN`. -/
def strtol (s : String) : Int :=
  let v :=
    match s.toList.dropWhile isspace with
    | '-' :: ds => - atoiDigits 0 ds
    | '+' :: ds => atoiDigits 0 ds
    | ds => atoiDigits 0 ds
  if v > LONG_MAX then LONG_MAX else if v < LONG_MIN then LONG_MIN else v

/-- Conversion of an integer value to a 32-bit `int` (the type behind `pid_t`):
the value modulo 2^32, read as a signed number. -/
def toInt32 (v : Int) : Int :=
  (v + 2147483648) % 4294967296 - 2147483648

/-- The C library function `atoi`, which is `(int) strtol(s, NULL, 10)`; the
result is what is stored in `pid_t target_pid`. -/
def atoi (s : String) : Int :=
  toInt32 (strtol s)

/-- The status chosen as `new_status` in `handle_signal_command`. -/
def new_status (sig : Int) : Int :=
  if sig = SIGSTOP then SUSPENDED
  else if sig = SIGINT then TERMINATED
  else if sig = SIGCONT then RUNNING
  else RUNNING

/-- Result of `handle_signal_command`: the returned flag, the process list
afterwards and what was done. -/
structure SignalResult where
  ret : Int
  process_list : List process
  trace : List Event
deriving Repr

/-- The function `handle_signal_command`; `kill pid sig` is the value the
system call `kill(pid, sig)` returns. -/
def handle_signal_command (kill : Int → Int → Int) (process_list : List process)
    (pCmdLine : cmdLine) (sig : Int) (cmd_name : String) : SignalResult :=
  if pCmdLine.arg 0 = cmd_name then
    if pCmdLine.argCount < 2 then
      { ret := 1, process_list := process_list,
        trace := [Event.eprintf (cmd_name ++ ": Missing process ID.\n")] }
    else
      let target_pid := atoi (pCmdLine.arg 1)
      if kill target_pid sig = -1 then
        { ret := 1, process_list := process_list,
          trace := [Event.kill target_pid sig, Event.perror "kill failed"] }
      else
        { ret := 1,
          process_list := updateProcessStatus process_list target_pid (new_status sig),
          trace := [Event.kill target_pid sig,
            Event.printf (cmd_name ++ ": Signal sent to PID " ++ toString target_pid ++ "\n")] }
  else
    { ret := 0, process_list := process_list, trace := [] }

/-! ## Pipeline and command execution (`myshell.c` lines 212-371) -/

/-- Results of the system calls made during one call of `execute`.  `pipe` is
the return value of `pipe(pipefd)` and `pipefd` the descriptors it stores
(read end, write end); `fork n` is what the `n`-th call of `fork` returns in
the process being followed; `openFd path` is the return value of `open`;
`execvpOk file` tells whether `execvp` replaces the process image (it returns,
with `-1`, only when it does not). -/
structure OS where
  kill : Int → Int → Int
  probe : Nat → Probe
  pipe : Int
  pipefd : Int × Int
  fork : Nat → Int
  openFd : String → Int
  execvpOk : String → Bool
  setpgid : Int
  getenvHome : Option String
  chdir : Option String → Int
  getpid : Int

/-- How the followed process leaves a function: by returning, by exiting with
a code (`exit`, `_exit`), or by having its image replaced by `execvp`. -/
inductive Ctl where
  | returned
  | exited (code : Int)
  | replaced
deriving DecidableEq, Repr

/-- Descriptor number `STDIN_FILENO`. -/
def STDIN_FILENO : Int := 0
/-- Descriptor number `STDOUT_FILENO`. -/
def STDOUT_FILENO : Int := 1

/-- The branch `pid1 == 0` of `execute_pipe` (the Left child). -/
def leftChild (os : OS) (pCmdLine : cmdLine) : List Event × Ctl :=
  let redirect : List Event × Bool :=
    match pCmdLine.inputRedirect with
    | none => ([], true)
    | some path =>
      let fd_in := os.openFd path
      if fd_in = -1 then
        ([Event.close STDIN_FILENO, Event.openRd path, Event.perror "open input failed"], false)
      else if fd_in ≠ STDIN_FILENO then
        ([Event.close STDIN_FILENO, Event.openRd path, Event.dup2 fd_in STDIN_FILENO,
          Event.close fd_in], true)
      else ([Event.close STDIN_FILENO, Event.openRd path], true)
  if redirect.2 = false then (redirect.1, Ctl.exited 1)
  else
    let setup := redirect.1 ++ [Event.close STDOUT_FILENO, Event.dup os.pipefd.2,
      Event.close os.pipefd.2, Event.close os.pipefd.1,
      Event.execvp (pCmdLine.arg 0) pCmdLine.arguments]
    if os.execvpOk (pCmdLine.arg 0) then (setup, Ctl.replaced)
    else (setup ++ [Event.perror "execvp left failed"], Ctl.exited 1)

/-- The branch `pid2 == 0` of `execute_pipe` (the Right child); `next` is
`pCmdLine->next`. -/
def rightChild (os : OS) (next : cmdLine) : List Event × Ctl :=
  let rebind := [Event.close STDIN_FILENO, Event.dup os.pipefd.1, Event.close os.pipefd.1]
  let redirect : List Event × Bool :=
    match next.outputRedirect with
    | none => ([], true)
    | some path =>
      let fd_out := os.openFd path
      if fd_out = -1 then
        ([Event.close STDOUT_FILENO, Event.openWr path, Event.perror "open output failed"], false)
      else if fd_out ≠ STDOUT_FILENO then
        ([Event.close STDOUT_FILENO, Event.openWr path, Event.dup2 fd_out STDOUT_FILENO,
          Event.close fd_out], true)
      else ([Event.close STDOUT_FILENO, Event.openWr path], true)
  if redirect.2 = false then (rebind ++ redirect.1, Ctl.exited 1)
  else
    let setup := rebind ++ redirect.1 ++ [Event.execvp (next.arg 0) next.arguments]
    if os.execvpOk (next.arg 0) then (setup, Ctl.replaced)
    else (setup ++ [Event.perror "execvp right failed"], Ctl.exited 1)

/-- The function `execute_pipe`; it is only called with `pCmdLine->next`
non-null, which is passed as `next`.  The process list is not touched. -/
def execute_pipe (os : OS) (pCmdLine next : cmdLine) : List Event × Ctl :=
  if os.pipe = -1 then ([Event.pipe, Event.perror "pipe failed"], Ctl.returned)
  else
    let pid1 := os.fork 0
    if pid1 = -1 then
      ([Event.pipe, Event.fork, Event.perror "fork left failed",
        Event.close os.pipefd.1, Event.close os.pipefd.2], Ctl.returned)
    else if pid1 = 0 then
      let child := leftChild os pCmdLine
      ([Event.pipe, Event.fork] ++ child.1, child.2)
    else
      let pid2 := os.fork 1
      if pid2 = -1 then
        ([Event.pipe, Event.fork, Event.close os.pipefd.2, Event.fork,
          Event.perror "fork right failed", Event.close os.pipefd.1, Event.waitpid pid1],
          Ctl.returned)
      else if pid2 = 0 then
        let child := rightChild os next
        ([Event.pipe, Event.fork, Event.close os.pipefd.2, Event.fork] ++ child.1, child.2)
      else
        ([Event.pipe, Event.fork, Event.close os.pipefd.2, Event.fork,
          Event.close os.pipefd.1, Event.waitpid pid1, Event.waitpid pid2], Ctl.returned)

/-- The function `printHistory`: one line per visited slot. -/
def printHistory (h : History) : List Event :=
  (printHistoryRows h).map fun row =>
    Event.printf (toString row.1 ++ ": " ++ row.2.getD "(null)" ++ "\n")

/-- The shell globals read or written by `execute`. -/
structure Shell where
  hist : History
  process_list : List process
  g_isDebug : Bool

/-- Result of `execute`: the process list afterwards, what the followed
process did, and how it left the function. -/
structure ExecResult where
  process_list : List process
  trace : List Event
  ctl : Ctl
deriving Repr

/-- The branch `pid == 0` of the plain path of `execute` (the child). -/
def plainChild (os : OS) (g_isDebug : Bool) (pCmdLine : cmdLine) : List Event × Ctl :=
  let signals := [Event.signalDfl SIGQUIT, Event.signalDfl SIGTSTP, Event.signalDfl SIGTTIN,
    Event.signalDfl SIGTTOU, Event.signalDfl SIGCHLD]
  let group :=
    if pCmdLine.blocking = false then
      if os.setpgid = -1 then [Event.setpgid, Event.perror "setpgid"] else [Event.setpgid]
    else []
  let out : List Event × Bool :=
    match pCmdLine.outputRedirect with
    | none => ([], true)
    | some path =>
      let fd_out := os.openFd path
      if fd_out = -1 then ([Event.openWr path, Event.perror "open output failed"], false)
      else ([Event.openWr path, Event.dup2 fd_out STDOUT_FILENO, Event.close fd_out], true)
  if out.2 = false then (signals ++ group ++ out.1, Ctl.exited 1)
  else
    let inp : List Event × Bool :=
      match pCmdLine.inputRedirect with
      | none => ([], true)
      | some path =>
        let fd_in := os.openFd path
        if fd_in = -1 then ([Event.openRd path, Event.perror "open input failed"], false)
        else ([Event.openRd path, Event.dup2 fd_in STDIN_FILENO, Event.close fd_in], true)
    if inp.2 = false then (signals ++ group ++ out.1 ++ inp.1, Ctl.exited 1)
    else
      let debug :=
        if g_isDebug then
          [Event.eprintf ("PID: " ++ toString os.getpid ++ "\nExecuting: "
            ++ pCmdLine.arg 0 ++ "\n")]
        else []
      let setup := signals ++ group ++ out.1 ++ inp.1 ++ debug
        ++ [Event.execvp (pCmdLine.arg 0) pCmdLine.arguments]
      if os.execvpOk (pCmdLine.arg 0) then (setup, Ctl.replaced)
      else (setup ++ [Event.perror "execvp failed"], Ctl.exited 1)

/-- The condition `handle_signal_command(pCmdLine, SIGSTOP, "zzzz") ||
handle_signal_command(pCmdLine, SIGCONT, "kuku") ||
handle_signal_command(pCmdLine, SIGINT, "blast")` of `execute`, evaluated left
to right and stopping at the first call that returns non-zero. -/
def signalCommands (kill : Int → Int → Int) (process_list : List process)
    (pCmdLine : cmdLine) : SignalResult :=
  let r1 := handle_signal_command kill process_list pCmdLine SIGSTOP "zzzz"
  if r1.ret ≠ 0 then r1
  else
    let r2 := handle_signal_command kill r1.process_list pCmdLine SIGCONT "kuku"
    if r2.ret ≠ 0 then
      { ret := r2.ret, process_list := r2.process_list, trace := r1.trace ++ r2.trace }
    else
      let r3 := handle_signal_command kill r2.process_list pCmdLine SIGINT "blast"
      { ret := r3.ret, process_list := r3.process_list,
        trace := r1.trace ++ r2.trace ++ r3.trace }

/-- The function `execute`; the argument `none` is a `NULL` command. -/
def execute (os : OS) (s : Shell) : Option cmdLine → ExecResult
  | none => { process_list := s.process_list, trace := [], ctl := Ctl.returned }
  | some pCmdLine =>
    if pCmdLine.arg 0 = "history" then
      { process_list := s.process_list, trace := printHistory s.hist, ctl := Ctl.returned }
    else
    match pCmdLine.next with
    | some next =>
      if pCmdLine.outputRedirect ≠ none then
        { process_list := s.process_list,
          trace := [Event.eprintf "Error: Output redirection on left side of pipe forbidden.\n"],
          ctl := Ctl.returned }
      else if next.inputRedirect ≠ none then
        { process_list := s.process_list,
          trace := [Event.eprintf "Error: Input redirection on right side of pipe forbidden.\n"],
          ctl := Ctl.returned }
      else
        let r := execute_pipe os pCmdLine next
        { process_list := s.process_list, trace := r.1, ctl := r.2 }
    | none =>
    if pCmdLine.arg 0 = "quit" then
      { process_list := s.process_list, trace := [], ctl := Ctl.exited 0 }
    else
    let r := signalCommands os.kill s.process_list pCmdLine
    if r.ret ≠ 0 then
      { process_list := r.process_list, trace := r.trace, ctl := Ctl.returned }
    else
    let process_list := r.process_list
    let sigTrace := r.trace
    if pCmdLine.arg 0 = "cd" then
      let target_dir : Option String :=
        if pCmdLine.argCount > 1 then some (pCmdLine.arg 1) else none
      let target_dir :=
        if target_dir = none ∨ target_dir = some "~" then os.getenvHome else target_dir
      { process_list := process_list,
        trace := sigTrace ++
          (if os.chdir target_dir = -1 then [Event.chdir target_dir, Event.perror "chdir failed"]
           else [Event.chdir target_dir]),
        ctl := Ctl.returned }
    else if pCmdLine.arg 0 = "procs" then
      let r := printProcessList os.probe process_list
      { process_list := r.1, trace := sigTrace ++ r.2, ctl := Ctl.returned }
    else
      let pid := os.fork 0
      if pid = -1 then
        { process_list := process_list,
          trace := sigTrace ++ [Event.fork, Event.perror "fork failed"], ctl := Ctl.returned }
      else if pid = 0 then
        let child := plainChild os s.g_isDebug pCmdLine
        { process_list := process_list, trace := sigTrace ++ [Event.fork] ++ child.1,
          ctl := child.2 }
      else
        { process_list := addProcess process_list pCmdLine pid,
          trace := sigTrace ++ [Event.fork] ++
            (if pCmdLine.blocking then [Event.waitpid pid] else []),
          ctl := Ctl.returned }

/-! ## Specification helpers -/

/-- Status of the job of pid `p`: that of the first node of the list with this
pid, the one `updateProcessStatus` addresses. -/
def statusOf (process_list : List process) (p : Int) : Option Int :=
  (process_list.find? fun j => j.pid = p).map fun j => j.status

/-- The status values the shell ever stores: the three status macros. -/
def validStatus (status : Int) : Prop :=
  status = TERMINATED ∨ status = RUNNING ∨ status = SUSPENDED

/-- Position of the first node of the list with pid `p` (the length of the
list when there is none). -/
def firstIdx : List process → Int → Nat
  | [], _ => 0
  | j :: rest, p => if j.pid = p then 0 else firstIdx rest p + 1

/-- A successful dispatch of the signal command `name` (sending `sig`) to pid
`p`: the command line is not a pipeline, its first argument is `name`, a pid
argument is present and reads as `p`, and `kill` does not fail. -/
def Dispatched (os : OS) (c : cmdLine) (name : String) (sig p : Int) : Prop :=
  c.next = none ∧ c.arg 0 = name ∧ 2 ≤ c.argCount ∧ atoi (c.arg 1) = p ∧ os.kill p sig ≠ -1

/-- Example job: a background command `./worker` with the given pid and
status. -/
def demoJob (pid status : Int) : process :=
  { cmd := cmdLine.mk ["./worker"] 1 none none false none, pid := pid, status := status }

/-- Example command line with two words and no redirection or pipe. -/
def demoCmd (name argument : String) : cmdLine :=
  cmdLine.mk [name, argument] 2 none none true none

/-- Example command line with a single word. -/
def demoCmd1 (name : String) : cmdLine :=
  cmdLine.mk [name] 1 none none true none

/-- Example pipeline `history > f | cat`: the Left command is `history` with
its output redirected to the file `f`, the Right command is `cat`. -/
def demoHistoryPipe : cmdLine :=
  cmdLine.mk ["history"] 1 none (some "f") true (some (demoCmd1 "cat"))

/-- Example pipeline `ls > f | cat`, with the output of Left redirected. -/
def demoBadPipe : cmdLine :=
  cmdLine.mk ["ls"] 1 none (some "f") true (some (demoCmd1 "cat"))

/-- Example system: every call succeeds, `fork` returns child pids 100, 101,
the pipe gets descriptors 3 and 4, and every probe reports no change. -/
def demoOS : OS :=
  { kill := fun _ _ => 0, probe := fun _ => { result := 0, status := WaitStatus.other },
    pipe := 0, pipefd := (3, 4), fork := fun n => 100 + (n : Int), openFd := fun _ => 5,
    execvpOk := fun _ => true, setpgid := 0, getenvHome := some "/root",
    chdir := fun _ => 0, getpid := 50 }

/-- Example system in which `kill` fails. -/
def demoOSKillFails : OS :=
  { demoOS with kill := fun _ _ => -1 }

/-- Example shell state with the given process list and an empty history. -/
def demoShell (process_list : List process) : Shell :=
  { hist := History.init, process_list := process_list, g_isDebug := false }

/-- What identifies a tracked job across status changes: its pid and its
command. -/
def ident (j : process) : Int × cmdLine := (j.pid, j.cmd)

/-- One later call of `execute`: the system it runs against, the values of the
other globals at that time, and the parsed line. -/
structure Step where
  os : OS
  hist : History
  g_isDebug : Bool
  line : Option cmdLine

/-- The process list after a sequence of calls of `execute`. -/
def runSteps : List Step → List process → List process
  | [], process_list => process_list
  | st :: rest, process_list =>
    runSteps rest (execute st.os
      { hist := st.hist, process_list := process_list, g_isDebug := st.g_isDebug }
      st.line).process_list

/-- The ring invariant after the commands `cs` have been added to the initial
history: the counters are determined by the number of commands, and each of
the last `HISTLEN` commands sits in the slot given by its ordinal modulo
`HISTLEN`. -/
def HistInv (h : History) (cs : List String) : Prop :=
  h.history.length = 20 ∧
  h.hist_count = ((min cs.length 20 : Nat) : Int) ∧
  h.oldest = ((if cs.length < 20 then 0 else cs.length % 20 : Nat) : Int) ∧
  h.newest = (if cs.length = 0 then -1 else (((cs.length - 1) % 20 : Nat) : Int)) ∧
  ∀ k, k < cs.length → cs.length ≤ k + 20 → h.history.getD (k % 20) none = cs[k]?

/-! ## Theorems: history ring -/

theorem histInv_init : HistInv History.init [] := by
  refine ⟨by simp [History.init], by simp [History.init], by simp [History.init],
    by simp [History.init], ?_⟩
  intro k hk
  simp at hk

theorem histInv_add (h : History) (cs : List String) (c : String) (hinv : HistInv h cs) :
    HistInv (addToHistory h c) (cs ++ [c]) := by
  obtain ⟨hlen, hcount, hold, hnew, hslots⟩ := hinv
  have hwrite : ∀ k, k < cs.length + 1 → cs.length + 1 ≤ k + 20 →
      (h.history.set (cs.length % 20) (some c)).getD (k % 20) none = (cs ++ [c])[k]? := by
    intro k hk hk20
    rcases Nat.lt_succ_iff_lt_or_eq.mp hk with hlt | heq
    · have hne : cs.length % 20 ≠ k % 20 := by omega
      rw [List.getD_eq_getElem?_getD, List.getElem?_set_ne hne, ← List.getD_eq_getElem?_getD,
        hslots k hlt (by omega), List.getElem?_append_left hlt]
    · subst heq
      rw [List.getD_eq_getElem?_getD, List.getElem?_set_eq_of_lt _ (by omega)]
      simp
  by_cases hfull : cs.length < 20
  · have hc : h.hist_count < HISTLEN := by
      rw [hcount]; simp only [HISTLEN]; omega
    have hn1 : Int.tmod (h.newest + 1) HISTLEN = ((cs.length : Nat) : Int) := by
      rw [hnew]; simp only [HISTLEN]
      split
      · rw [Int.tmod_eq_emod (by omega) (by omega)]; omega
      · rw [Int.tmod_eq_emod (by omega) (by omega)]; omega
    simp only [addToHistory, hc, if_true, hn1, Int.toNat_ofNat]
    refine ⟨by simpa using hlen, ?_, ?_, ?_, ?_⟩
    · simp only [hcount, List.length_append, List.length_singleton]; omega
    · simp only [hold, List.length_append, List.length_singleton]
      split <;> split <;> omega
    · simp only [List.length_append, List.length_singleton]
      split <;> omega
    · intro k hk hk20
      simp only [List.length_append, List.length_singleton] at hk hk20
      have := hwrite k hk hk20
      rwa [Nat.mod_eq_of_lt hfull] at this
  · have hc : ¬ h.hist_count < HISTLEN := by
      rw [hcount]; simp only [HISTLEN]; omega
    have ho : h.oldest = (((cs.length % 20 : Nat)) : Int) := by
      rw [hold]; simp [hfull]
    have ho1 : Int.tmod (h.oldest + 1) HISTLEN = ((((cs.length + 1) % 20 : Nat)) : Int) := by
      rw [ho]; simp only [HISTLEN]
      rw [Int.tmod_eq_emod (by omega) (by omega)]; omega
    simp only [addToHistory, hc, if_false, ho1]
    rw [ho]
    simp only [Int.toNat_ofNat]
    refine ⟨by simpa using hlen, ?_, ?_, ?_, ?_⟩
    · simp only [hcount, List.length_append, List.length_singleton]; omega
    · simp only [List.length_append, List.length_singleton]
      split <;> omega
    · simp only [List.length_append, List.length_singleton]
      split <;> omega
    · intro k hk hk20
      simp only [List.length_append, List.length_singleton] at hk hk20
      exact hwrite k hk hk20

theorem histInv_addAll (cs : List String) : HistInv (addAll History.init cs) cs := by
  induction cs using List.reverseRecOn with
  | nil => exact histInv_init
  | append_singleton cs c ih =>
    have : addAll History.init (cs ++ [c]) = addToHistory (addAll History.init cs) c := by
      simp [addAll, List.foldl_append]
    rw [this]
    exact histInv_add _ cs c ih


theorem slot_of_recent (cs : List String) (k : Nat) (hk : k < cs.length)
    (hk20 : cs.length ≤ k + 20) :
    (addAll History.init cs).slot (((k % 20 : Nat)) : Int) = cs[k]? := by
  obtain ⟨_, _, _, _, hslots⟩ := histInv_addAll cs
  simp only [History.slot, Int.toNat_ofNat]
  exact hslots k hk hk20

theorem printHistoryRows_entries (cs : List String) :
    (printHistoryRows (addAll History.init cs)).map Prod.snd
      = (cs.drop (cs.length - min cs.length 20)).map some := by
  obtain ⟨_, hcount, hold, _, _⟩ := histInv_addAll cs
  apply List.ext_getElem?
  intro i
  simp only [printHistoryRows, List.map_map, hcount, Int.toNat_ofNat, List.getElem?_map,
    List.getElem?_range, List.getElem?_drop]
  by_cases hi : i < min cs.length 20
  · have hr : (List.range (min cs.length 20))[i]? = some i := by
      rw [List.getElem?_range hi]
    rw [hr]
    simp only [Option.map_some', Function.comp_apply, HISTLEN, hold]
    have hidx : Int.tmod (((if cs.length < 20 then 0 else cs.length % 20 : Nat) : Int) + (i : Int)) 20
        = ((((cs.length - min cs.length 20 + i) % 20 : Nat)) : Int) := by
      rw [Int.tmod_eq_emod (by omega) (by omega)]
      split <;> omega
    rw [hidx, slot_of_recent cs _ (by omega) (by omega)]
    have hlt : cs.length - min cs.length 20 + i < cs.length := by omega
    rw [List.getElem?_eq_getElem hlt]
    rfl
  · have hr : (List.range (min cs.length 20))[i]? = none := by
      rw [List.getElem?_eq_none]; simpa using Nat.le_of_not_lt hi
    rw [hr]
    have hge : cs.length ≤ cs.length - min cs.length 20 + i := by omega
    rw [List.getElem?_eq_none hge]
    rfl

theorem slot_newest (cs : List String) (hn : 1 ≤ cs.length) :
    (addAll History.init cs).slot (addAll History.init cs).newest = cs.getLast? := by
  obtain ⟨_, _, _, hnew, _⟩ := histInv_addAll cs
  have hne : cs.length ≠ 0 := by omega
  rw [hnew, if_neg hne, slot_of_recent cs (cs.length - 1) (by omega) (by omega),
    List.getLast?_eq_getElem?]

/-- C10: after any n ≥ 1 commands have been added to the empty history,
`hist_count` is min(n, HISTLEN), the entries read by the loop of
`printHistory` at the slots `(oldest + i) % HISTLEN`, `i < hist_count`, are the
last min(n, HISTLEN) commands in insertion order, and `history[newest]` is the
last command added. -/
theorem history_holds_last_commands (cs : List String) (hn : 1 ≤ cs.length) :
    (addAll History.init cs).hist_count = ((min cs.length 20 : Nat) : Int)
    ∧ (printHistoryRows (addAll History.init cs)).map Prod.snd
        = (cs.drop (cs.length - min cs.length 20)).map some
    ∧ (printHistoryRows (addAll History.init cs)).map Prod.fst
        = (List.range (min cs.length 20)).map (fun (i : Nat) =>
            Int.tmod ((addAll History.init cs).oldest + (i : Int)) HISTLEN)
    ∧ (addAll History.init cs).slot (addAll History.init cs).newest = cs.getLast?
    ∧ recallLast (addAll History.init cs) = cs.getLast? := by
  have hc : (addAll History.init cs).hist_count ≠ 0 := by
    rw [(histInv_addAll cs).2.1]; omega
  refine ⟨(histInv_addAll cs).2.1, printHistoryRows_entries cs, ?_, slot_newest cs hn,
    by rw [recallLast, if_neg hc]; exact slot_newest cs hn⟩
  simp only [printHistoryRows, (histInv_addAll cs).2.1, Int.toNat_ofNat, List.map_map]
  rfl

theorem history_holds_last_commands_witness :
    (addAll History.init ["ls", "pwd", "ls"]).hist_count = 3
    ∧ (printHistoryRows (addAll History.init ["ls", "pwd", "ls"])).map Prod.snd
        = [some "ls", some "pwd", some "ls"]
    ∧ recallLast (addAll History.init ["ls", "pwd", "ls"]) = some "ls" := by
  have h := history_holds_last_commands ["ls", "pwd", "ls"] (by decide)
  exact ⟨h.1, h.2.1, h.2.2.2.2⟩


/-- C9: from an empty history, after HISTLEN+1 = 21 pairwise distinct commands
`hist_count` is HISTLEN, slot 0 (which held the first command after the first
insertion) yields the last command, and no index makes `getHistoryCommand`
return the first command. -/
theorem history_wraps_after_histlen_plus_one (cs : List String) (hlen : cs.length = 21)
    (hnd : cs.Nodup) :
    (addAll History.init cs).hist_count = HISTLEN
    ∧ getHistoryCommand (addAll History.init (cs.take 1)) 0 = cs[0]?
    ∧ getHistoryCommand (addAll History.init cs) 0 = cs[20]?
    ∧ ∀ index : Int, getHistoryCommand (addAll History.init cs) index ≠ cs[0]? := by
  have hcount : (addAll History.init cs).hist_count = 20 := by
    rw [(histInv_addAll cs).2.1, hlen]; rfl
  have h0 : cs[0]? = some (cs[0]) := List.getElem?_eq_getElem (by omega)
  refine ⟨hcount, ?_, ?_, ?_⟩
  · have h1 := slot_of_recent (cs.take 1) 0 (by simp; omega) (by simp)
    have hc1 : (addAll History.init (cs.take 1)).hist_count = 1 := by
      rw [(histInv_addAll (cs.take 1)).2.1]; simp; omega
    have hget : (cs.take 1)[0]? = cs[0]? := by
      rw [List.getElem?_take]; simp
    simp only [Nat.zero_mod, Nat.cast_zero] at h1
    simp only [getHistoryCommand, hc1, HISTLEN, h1, hget, h0]
    simp
  · have h20 := slot_of_recent cs 20 (by omega) (by omega)
    have h20s : cs[20]? = some (cs[20]) := List.getElem?_eq_getElem (by omega)
    simp only [Nat.mod_self, Nat.cast_zero] at h20
    simp only [getHistoryCommand, hcount, HISTLEN, h20, h20s]
    simp
  · intro index
    simp only [getHistoryCommand, hcount, HISTLEN]
    by_cases hr : index < 0 ∨ index ≥ 20
    · have : index < 0 ∨ index ≥ 20 ∨ (addAll History.init cs).slot index = none := by tauto
      simp [this, h0]
    · obtain ⟨k, hk, hk20, hkm⟩ : ∃ k : Nat, 0 < k ∧ k < 21 ∧ ((k % 20 : Nat) : Int) = index := by
        by_cases hz : index = 0
        · exact ⟨20, by omega, by omega, by omega⟩
        · exact ⟨index.toNat, by omega, by omega, by omega⟩
      have hs := slot_of_recent cs k (by omega) (by omega)
      rw [hkm] at hs
      have hks : cs[k]? = some (cs[k]) := List.getElem?_eq_getElem (by omega)
      have hne : cs[k] ≠ cs[0] := by
        intro heq
        have hk21 : k < cs.length := by omega
        have h021 : 0 < cs.length := by omega
        have := (@List.Nodup.getElem_inj_iff _ cs hnd k hk21 0 h021).mp heq
        omega
      simp only [hs, hks, h0]
      simp [hr, hne]

theorem history_wraps_after_histlen_plus_one_witness :
    (addAll History.init ((List.range 21).map toString)).hist_count = HISTLEN
    ∧ getHistoryCommand (addAll History.init ((List.range 21).map toString)) 0 = some "20"
    ∧ ∀ index : Int,
        getHistoryCommand (addAll History.init ((List.range 21).map toString)) index ≠ some "0" := by
  have h := history_wraps_after_histlen_plus_one ((List.range 21).map toString)
    (by decide) (by decide)
  exact ⟨h.1, h.2.2.1, h.2.2.2⟩


/-! ## Theorems: process registry -/

theorem updateProcessStatus_absent (l : List process) (pid st : Int)
    (h : ∀ j ∈ l, j.pid ≠ pid) : updateProcessStatus l pid st = l := by
  induction l with
  | nil => rfl
  | cons a t ih =>
    have ha : a.pid ≠ pid := h a (List.mem_cons_self a t)
    simp only [updateProcessStatus, if_neg ha]
    rw [ih fun j hj => h j (List.mem_cons_of_mem a hj)]

theorem updateProcessStatus_split (pre post : List process) (j : process) (pid st : Int)
    (hpre : ∀ x ∈ pre, x.pid ≠ pid) (hj : j.pid = pid) :
    updateProcessStatus (pre ++ j :: post) pid st = pre ++ { j with status := st } :: post := by
  induction pre with
  | nil => simp [updateProcessStatus, hj]
  | cons a t ih =>
    have ha : a.pid ≠ pid := hpre a (List.mem_cons_self a t)
    have ih2 := ih fun x hx => hpre x (List.mem_cons_of_mem a hx)
    simp only [List.cons_append, updateProcessStatus, if_neg ha]
    exact congrArg (List.cons a) ih2

theorem exists_first_match (l : List process) (pid : Int) (h : ∃ j ∈ l, j.pid = pid) :
    ∃ pre j post, l = pre ++ j :: post ∧ (∀ x ∈ pre, x.pid ≠ pid) ∧ j.pid = pid := by
  induction l with
  | nil => simp at h
  | cons a t ih =>
    by_cases ha : a.pid = pid
    · exact ⟨[], a, t, rfl, by simp, ha⟩
    · have ht : ∃ j ∈ t, j.pid = pid := by
        obtain ⟨j, hj, hp⟩ := h
        rcases List.mem_cons.mp hj with rfl | hj
        · exact absurd hp ha
        · exact ⟨j, hj, hp⟩
      obtain ⟨pre, j, post, hl, hpre, hj⟩ := ih ht
      refine ⟨a :: pre, j, post, by simp [hl], ?_, hj⟩
      intro x hx
      rcases List.mem_cons.mp hx with rfl | hx
      · exact ha
      · exact hpre x hx

/-- C8: `updateProcessStatus` leaves the list unchanged when no job has the
given pid; otherwise the list splits at the first job with that pid, and the
result differs from the list only in the status field of that job: every job
before and after it (later jobs with the same pid included), every pid and
command, and the order stay as they were. -/
theorem updateProcessStatus_changes_first_match_only (l : List process) (pid st : Int) :
    ((∀ j ∈ l, j.pid ≠ pid) → updateProcessStatus l pid st = l)
    ∧ ((∃ j ∈ l, j.pid = pid) →
        ∃ pre j post, l = pre ++ j :: post ∧ (∀ x ∈ pre, x.pid ≠ pid) ∧ j.pid = pid
          ∧ updateProcessStatus l pid st
              = pre ++ { cmd := j.cmd, pid := j.pid, status := st } :: post) := by
  refine ⟨updateProcessStatus_absent l pid st, ?_⟩
  intro h
  obtain ⟨pre, j, post, hl, hpre, hj⟩ := exists_first_match l pid h
  exact ⟨pre, j, post, hl, hpre, hj, by rw [hl]; exact updateProcessStatus_split pre post j pid st hpre hj⟩

theorem updateProcessStatus_changes_first_match_only_witness :
    updateProcessStatus [demoJob 7 RUNNING, demoJob 8 RUNNING] 9 SUSPENDED
        = [demoJob 7 RUNNING, demoJob 8 RUNNING]
    ∧ ∃ pre j post, [demoJob 7 RUNNING, demoJob 8 RUNNING, demoJob 8 RUNNING] = pre ++ j :: post
        ∧ (∀ x ∈ pre, x.pid ≠ 8) ∧ j.pid = 8
        ∧ updateProcessStatus [demoJob 7 RUNNING, demoJob 8 RUNNING, demoJob 8 RUNNING] 8 SUSPENDED
            = pre ++ { cmd := j.cmd, pid := j.pid, status := SUSPENDED } :: post :=
  ⟨(updateProcessStatus_changes_first_match_only
      [demoJob 7 RUNNING, demoJob 8 RUNNING] 9 SUSPENDED).1 (by decide),
    (updateProcessStatus_changes_first_match_only
      [demoJob 7 RUNNING, demoJob 8 RUNNING, demoJob 8 RUNNING] 8 SUSPENDED).2
      ⟨demoJob 8 RUNNING, by simp, rfl⟩⟩

theorem updateProcessListFrom_getElem? (probe : Nat → Probe) (l : List process) (n i : Nat) :
    (updateProcessListFrom probe n l)[i]? = (l[i]?).map (updateNode (probe (n + i))) := by
  induction l generalizing n i with
  | nil => simp [updateProcessListFrom]
  | cons a t ih =>
    cases i with
    | zero => simp [updateProcessListFrom]
    | succ i =>
      simp only [updateProcessListFrom, List.getElem?_cons_succ]
      rw [ih (n + 1) i]
      have hidx : n + 1 + i = n + (i + 1) := by omega
      rw [hidx]

theorem updateProcessListFrom_length (probe : Nat → Probe) (l : List process) (n : Nat) :
    (updateProcessListFrom probe n l).length = l.length := by
  induction l generalizing n with
  | nil => rfl
  | cons a t ih => simp [updateProcessListFrom, ih]

theorem updateNode_pid (pr : Probe) (j : process) : (updateNode pr j).pid = j.pid := by
  unfold updateNode
  repeat' split
  all_goals rfl

theorem updateNode_cmd (pr : Probe) (j : process) : (updateNode pr j).cmd = j.cmd := by
  unfold updateNode
  repeat' split
  all_goals rfl

/-- C3: `updateProcessList` keeps the number and order of the jobs and the pid
and command of each; the job at each position gets its state from the probe
issued for it: error (`-1`) gives `TERMINATED`; a reported change gives
`TERMINATED` when exited or killed by a signal, `SUSPENDED` when stopped,
`RUNNING` when continued. -/
theorem updateProcessList_maps_probe_outcomes (probe : Nat → Probe) (l : List process) :
    (updateProcessList probe l).length = l.length
    ∧ ∀ (i : Nat) (j : process), l[i]? = some j →
        ∃ j', (updateProcessList probe l)[i]? = some j' ∧ j'.pid = j.pid ∧ j'.cmd = j.cmd
          ∧ ((probe i).result = -1 → j'.status = TERMINATED)
          ∧ ((probe i).result ≠ -1 → (probe i).result ≠ 0 →
              (((probe i).status = WaitStatus.exited ∨ (probe i).status = WaitStatus.signaled)
                → j'.status = TERMINATED)
              ∧ ((probe i).status = WaitStatus.stopped → j'.status = SUSPENDED)
              ∧ ((probe i).status = WaitStatus.continued → j'.status = RUNNING)) := by
  refine ⟨updateProcessListFrom_length probe l 0, ?_⟩
  intro i j hj
  refine ⟨updateNode (probe i) j, ?_, updateNode_pid _ _, updateNode_cmd _ _, ?_, ?_⟩
  · simp [updateProcessList, updateProcessListFrom_getElem?, hj]
  · intro h
    simp [updateNode, h]
  · intro h1 h0
    refine ⟨?_, ?_, ?_⟩
    · rintro (h | h) <;> simp [updateNode, h1, h0, h, WIFEXITED, WIFSIGNALED]
    · intro h
      simp [updateNode, h1, h0, h, WIFEXITED, WIFSIGNALED, WIFSTOPPED]
    · intro h
      simp [updateNode, h1, h0, h, WIFEXITED, WIFSIGNALED, WIFSTOPPED, WIFCONTINUED]

theorem updateProcessList_maps_probe_outcomes_witness :
    ∃ j, (updateProcessList (fun _ => { result := 7, status := WaitStatus.stopped })
        [demoJob 7 RUNNING])[0]? = some j ∧ j.pid = 7 ∧ j.status = SUSPENDED := by
  obtain ⟨j, hj, hpid, _, _, hmap⟩ := (updateProcessList_maps_probe_outcomes
    (fun _ => { result := 7, status := WaitStatus.stopped }) [demoJob 7 RUNNING]).2
    0 (demoJob 7 RUNNING) rfl
  exact ⟨j, hj, hpid, (hmap (by decide) (by decide)).2.1 rfl⟩

theorem pruneWalk_fst (l : List process) :
    (pruneWalk l).1 = l.filter fun j => decide (j.status ≠ TERMINATED) := by
  induction l with
  | nil => rfl
  | cons a t ih =>
    by_cases h : a.status = TERMINATED
    · simp [pruneWalk, h, ih]
    · simp [pruneWalk, h, ih]

theorem pruneWalk_snd (l : List process) : (pruneWalk l).2 = l.map procRow := by
  induction l with
  | nil => rfl
  | cons a t ih =>
    by_cases h : a.status = TERMINATED
    · simp [pruneWalk, h, ih]
    · simp [pruneWalk, h, ih]


theorem updateProcessListFrom_ident (probe : Nat → Probe) (l : List process) (n : Nat) :
    (updateProcessListFrom probe n l).map ident = l.map ident := by
  induction l generalizing n with
  | nil => rfl
  | cons a t ih => simp [updateProcessListFrom, ih, ident, updateNode_pid, updateNode_cmd]

theorem updateNode_valid (pr : Probe) (j : process) (h : validStatus j.status) :
    validStatus (updateNode pr j).status := by
  unfold updateNode
  repeat' split
  all_goals first
    | exact h
    | exact Or.inl rfl
    | exact Or.inr (Or.inl rfl)
    | exact Or.inr (Or.inr rfl)

theorem updateProcessListFrom_valid (probe : Nat → Probe) (l : List process) (n : Nat)
    (h : ∀ j ∈ l, validStatus j.status) :
    ∀ j ∈ updateProcessListFrom probe n l, validStatus j.status := by
  induction l generalizing n with
  | nil => simp [updateProcessListFrom]
  | cons a t ih =>
    intro j hj
    simp only [updateProcessListFrom, List.mem_cons] at hj
    rcases hj with rfl | hj
    · exact updateNode_valid _ _ (h a (List.mem_cons_self a t))
    · exact ih (n + 1) (fun x hx => h x (List.mem_cons_of_mem a hx)) j hj

theorem status_str_terminated (status : Int) (h : validStatus status)
    (hs : status_str status = "Terminated") : status = TERMINATED := by
  rcases h with h | h | h
  · exact h
  · rw [h] at hs; exact absurd hs (by decide)
  · rw [h] at hs; exact absurd hs (by decide)

theorem printProcessList_fst (probe : Nat → Probe) (l : List process) :
    (printProcessList probe l).1
      = (updateProcessList probe l).filter fun j => decide (j.status ≠ TERMINATED) := by
  simp only [printProcessList, pruneWalk_fst]

theorem printProcessList_snd (probe : Nat → Probe) (l : List process) :
    (printProcessList probe l).2 = procHeader :: (updateProcessList probe l).map procRow := by
  simp only [printProcessList, pruneWalk_snd]

theorem updateProcessStatus_ident (l : List process) (pid st : Int) :
    (updateProcessStatus l pid st).map ident = l.map ident := by
  induction l with
  | nil => rfl
  | cons a t ih =>
    by_cases ha : a.pid = pid
    · simp [updateProcessStatus, ha, ident]
    · simp [updateProcessStatus, ha, ih]

theorem handle_signal_command_ident (kill : Int → Int → Int) (pl : List process) (c : cmdLine)
    (sig : Int) (name : String) :
    (handle_signal_command kill pl c sig name).process_list.map ident = pl.map ident := by
  simp only [handle_signal_command]
  split
  · split
    · rfl
    · split
      · rfl
      · exact updateProcessStatus_ident pl _ _
  · rfl

theorem signalCommands_ident (kill : Int → Int → Int) (pl : List process) (c : cmdLine) :
    (signalCommands kill pl c).process_list.map ident = pl.map ident := by
  have h1 := handle_signal_command_ident kill pl c SIGSTOP "zzzz"
  have h2 := handle_signal_command_ident kill
    (handle_signal_command kill pl c SIGSTOP "zzzz").process_list c SIGCONT "kuku"
  have h3 := handle_signal_command_ident kill
    (handle_signal_command kill
      (handle_signal_command kill pl c SIGSTOP "zzzz").process_list c SIGCONT "kuku").process_list
    c SIGINT "blast"
  simp only [signalCommands]
  split
  · exact h1
  · split
    · exact h2.trans h1
    · exact h3.trans (h2.trans h1)

theorem printProcessList_ident_sublist (probe : Nat → Probe) (l : List process) :
    List.Sublist ((printProcessList probe l).1.map ident) (l.map ident) := by
  have h : (updateProcessList probe l).map ident = l.map ident :=
    updateProcessListFrom_ident probe l 0
  rw [printProcessList_fst, ← h]
  exact (List.filter_sublist _).map ident

/-- One call of `execute` keeps a subsequence of the tracked jobs and adds at
most one job in front of it, the one it registers with `addProcess`. -/
theorem execute_ident (os : OS) (s : Shell) (c : Option cmdLine) :
    ∃ added kept, (execute os s c).process_list.map ident = added ++ kept
      ∧ List.Sublist kept (s.process_list.map ident)
      ∧ ∀ a ∈ added, c = some a.2 ∧ a.1 = os.fork 0 := by
  have hkeep : ∀ l : List process, List.Sublist (l.map ident) (s.process_list.map ident) →
      ∃ added kept, l.map ident = added ++ kept
        ∧ List.Sublist kept (s.process_list.map ident)
        ∧ ∀ a ∈ added, c = some a.2 ∧ a.1 = os.fork 0 :=
    fun l hl => ⟨[], l.map ident, rfl, hl, by simp⟩
  cases c with
  | none => exact hkeep _ (List.Sublist.refl _)
  | some c =>
    have hsig := signalCommands_ident os.kill s.process_list c
    have hsub : List.Sublist ((signalCommands os.kill s.process_list c).process_list.map ident)
        (s.process_list.map ident) := by
      rw [hsig]
    simp only [execute]
    split
    · exact hkeep _ (List.Sublist.refl _)
    · split
      · split
        · exact hkeep _ (List.Sublist.refl _)
        · split <;> exact hkeep _ (List.Sublist.refl _)
      · split
        · exact hkeep _ (List.Sublist.refl _)
        · split
          · exact hkeep _ hsub
          · split
            · exact hkeep _ hsub
            · split
              · exact hkeep _ ((printProcessList_ident_sublist _ _).trans hsub)
              · split
                · exact hkeep _ hsub
                · split
                  · exact hkeep _ hsub
                  · refine ⟨[(os.fork 0, c)],
                      (signalCommands os.kill s.process_list c).process_list.map ident,
                      by simp [addProcess, ident], hsub, ?_⟩
                    intro a ha
                    rw [List.mem_singleton] at ha
                    subst ha
                    exact ⟨rfl, rfl⟩

/-- After any sequence of calls of `execute`, the tracked jobs are jobs those
calls registered, followed by a subsequence of the jobs tracked before. -/
theorem runSteps_ident (steps : List Step) (l : List process) :
    ∃ added kept, (runSteps steps l).map ident = added ++ kept
      ∧ List.Sublist kept (l.map ident)
      ∧ ∀ a ∈ added, ∃ st ∈ steps, st.line = some a.2 ∧ a.1 = st.os.fork 0 := by
  induction steps generalizing l with
  | nil => exact ⟨[], l.map ident, rfl, List.Sublist.refl _, by simp⟩
  | cons st rest ih =>
    obtain ⟨a1, k1, h1, hs1, ha1⟩ := execute_ident st.os
      { hist := st.hist, process_list := l, g_isDebug := st.g_isDebug } st.line
    obtain ⟨a2, k2, h2, hs2, ha2⟩ := ih (execute st.os
      { hist := st.hist, process_list := l, g_isDebug := st.g_isDebug } st.line).process_list
    rw [h1] at hs2
    obtain ⟨x, y, hxy, hx, hy⟩ := List.sublist_append_iff.mp hs2
    refine ⟨a2 ++ x, y, ?_, hy.trans hs1, ?_⟩
    · simp only [runSteps]
      rw [h2, hxy, List.append_assoc]
    · intro a ha
      rcases List.mem_append.mp ha with h | h
      · obtain ⟨st2, hst2, hl⟩ := ha2 a h
        exact ⟨st2, List.mem_cons_of_mem _ hst2, hl⟩
      · exact ⟨st, List.mem_cons_self _ _, ha1 a (hx.subset h)⟩

/-- C1: after `printProcessList` the registry is exactly the jobs that were not
`TERMINATED` after the refresh, in their order and unchanged, so it holds no
`TERMINATED` job; every refreshed job was printed; a job printed with status
`TERMINATED` (for the statuses the shell stores: printed with the label
Terminated) is not in the registry afterwards; and after any further calls of
`execute` a later listing prints the jobs those calls registered followed by
a subsequence of the jobs that survived this listing. -/
theorem printProcessList_prunes_terminated (probe : Nat → Probe) (l : List process) :
    (printProcessList probe l).1
        = (updateProcessList probe l).filter (fun j => decide (j.status ≠ TERMINATED))
    ∧ (∀ j ∈ (printProcessList probe l).1, j.status ≠ TERMINATED)
    ∧ List.Sublist (printProcessList probe l).1 (updateProcessList probe l)
    ∧ (printProcessList probe l).2 = procHeader :: (updateProcessList probe l).map procRow
    ∧ (∀ j ∈ updateProcessList probe l, j.status = TERMINATED →
        j ∉ (printProcessList probe l).1)
    ∧ ((∀ j ∈ l, validStatus j.status) → ∀ j ∈ updateProcessList probe l,
        status_str j.status = "Terminated" → j ∉ (printProcessList probe l).1)
    ∧ (∀ (steps : List Step) (probe2 : Nat → Probe),
        (printProcessList probe2 (runSteps steps (printProcessList probe l).1)).2
            = procHeader ::
                (updateProcessList probe2 (runSteps steps (printProcessList probe l).1)).map
                  procRow
        ∧ ∃ added kept,
            (updateProcessList probe2 (runSteps steps (printProcessList probe l).1)).map ident
              = added ++ kept
            ∧ List.Sublist kept (((updateProcessList probe l).filter
                (fun j => decide (j.status ≠ TERMINATED))).map ident)
            ∧ ∀ a ∈ added, ∃ st ∈ steps, st.line = some a.2 ∧ a.1 = st.os.fork 0) := by
  have hmem : ∀ j ∈ (printProcessList probe l).1, j.status ≠ TERMINATED := by
    intro j hj
    rw [printProcessList_fst, List.mem_filter] at hj
    simpa using hj.2
  refine ⟨printProcessList_fst probe l, hmem, ?_, printProcessList_snd probe l, ?_, ?_, ?_⟩
  · rw [printProcessList_fst]
    exact List.filter_sublist _
  · intro j _ hs hj
    exact hmem j hj hs
  · intro hv j hj hs hin
    have hvj := updateProcessListFrom_valid probe l 0 hv j hj
    exact hmem j hin (status_str_terminated _ hvj hs)
  · intro steps probe2
    refine ⟨printProcessList_snd probe2 _, ?_⟩
    obtain ⟨added, kept, h1, h2, h3⟩ := runSteps_ident steps (printProcessList probe l).1
    refine ⟨added, kept, ?_, ?_, h3⟩
    · rw [updateProcessList, updateProcessListFrom_ident, h1]
    · rw [← printProcessList_fst]
      exact h2

theorem printProcessList_prunes_terminated_witness :
    (printProcessList demoOS.probe [demoJob 7 TERMINATED, demoJob 8 RUNNING]).1
        = [demoJob 8 RUNNING]
    ∧ demoJob 7 TERMINATED
        ∉ (printProcessList demoOS.probe [demoJob 7 TERMINATED, demoJob 8 RUNNING]).1 := by
  have h := printProcessList_prunes_terminated demoOS.probe
    [demoJob 7 TERMINATED, demoJob 8 RUNNING]
  refine ⟨h.1.trans rfl, h.2.2.2.2.2.1 ?_ (demoJob 7 TERMINATED) (List.mem_cons_self _ _) rfl⟩
  intro j hj
  simp only [List.mem_cons, List.mem_singleton, List.not_mem_nil, or_false] at hj
  rcases hj with rfl | rfl
  · exact Or.inl rfl
  · exact Or.inr (Or.inl rfl)

/-! ## Theorems: signal dispatch -/

theorem statusOf_updateProcessStatus (l : List process) (p st : Int)
    (h : ∃ j ∈ l, j.pid = p) : statusOf (updateProcessStatus l p st) p = some st := by
  induction l with
  | nil => simp at h
  | cons a t ih =>
    by_cases ha : a.pid = p
    · simp [statusOf, updateProcessStatus, ha]
    · have ht : ∃ j ∈ t, j.pid = p := by
        obtain ⟨j, hj, hp⟩ := h
        rcases List.mem_cons.mp hj with rfl | hj
        · exact absurd hp ha
        · exact ⟨j, hj, hp⟩
      have := ih ht
      simp only [statusOf] at this
      simp [statusOf, updateProcessStatus, ha, this]

theorem updateProcessStatus_tracked (l : List process) (pid st p : Int)
    (h : ∃ j ∈ l, j.pid = p) : ∃ j ∈ updateProcessStatus l pid st, j.pid = p := by
  induction l with
  | nil => simp at h
  | cons a t ih =>
    obtain ⟨j, hj, hp⟩ := h
    by_cases ha : a.pid = pid
    · simp only [updateProcessStatus, if_pos ha]
      rcases List.mem_cons.mp hj with rfl | hj
      · exact ⟨_, List.mem_cons_self _ _, hp⟩
      · exact ⟨j, List.mem_cons_of_mem _ hj, hp⟩
    · simp only [updateProcessStatus, if_neg ha]
      rcases List.mem_cons.mp hj with rfl | hj
      · exact ⟨_, List.mem_cons_self _ _, hp⟩
      · obtain ⟨x, hx, hxp⟩ := ih ⟨j, hj, hp⟩
        exact ⟨x, List.mem_cons_of_mem _ hx, hxp⟩

theorem handle_signal_command_other (kill : Int → Int → Int) (pl : List process) (c : cmdLine)
    (sig : Int) (name : String) (h : c.arg 0 ≠ name) :
    handle_signal_command kill pl c sig name = { ret := 0, process_list := pl, trace := [] } := by
  simp [handle_signal_command, h]

theorem handle_signal_command_ret (kill : Int → Int → Int) (pl : List process) (c : cmdLine)
    (sig : Int) (name : String) (h : c.arg 0 = name) :
    (handle_signal_command kill pl c sig name).ret = 1 := by
  simp only [handle_signal_command, if_pos h]
  split
  · rfl
  · split <;> rfl

theorem signalCommands_match (kill : Int → Int → Int) (pl : List process) (c : cmdLine)
    (name : String) (sig : Int)
    (hcmd : (name, sig) = ("zzzz", SIGSTOP) ∨ (name, sig) = ("kuku", SIGCONT)
      ∨ (name, sig) = ("blast", SIGINT))
    (harg : c.arg 0 = name) :
    signalCommands kill pl c = handle_signal_command kill pl c sig name := by
  rcases hcmd with h | h | h
  · obtain ⟨rfl, rfl⟩ := Prod.mk.inj h
    have hr := handle_signal_command_ret kill pl c SIGSTOP "zzzz" harg
    simp [signalCommands, hr]
  · obtain ⟨rfl, rfl⟩ := Prod.mk.inj h
    have h1 := handle_signal_command_other kill pl c SIGSTOP "zzzz" (by rw [harg]; decide)
    have hr := handle_signal_command_ret kill pl c SIGCONT "kuku" harg
    simp only [signalCommands, h1, hr]
    generalize handle_signal_command kill pl c SIGCONT "kuku" = x at hr ⊢
    cases x
    simp at hr ⊢
    exact hr.symm
  · obtain ⟨rfl, rfl⟩ := Prod.mk.inj h
    have h1 := handle_signal_command_other kill pl c SIGSTOP "zzzz" (by rw [harg]; decide)
    have h2 := handle_signal_command_other kill pl c SIGCONT "kuku" (by rw [harg]; decide)
    have hr := handle_signal_command_ret kill pl c SIGINT "blast" harg
    simp only [signalCommands, h1, h2, hr]
    generalize handle_signal_command kill pl c SIGINT "blast" = x at hr ⊢
    cases x
    simp at hr ⊢
    exact hr.symm

theorem execute_signal (os : OS) (s : Shell) (c : cmdLine) (name : String) (sig : Int)
    (hcmd : (name, sig) = ("zzzz", SIGSTOP) ∨ (name, sig) = ("kuku", SIGCONT)
      ∨ (name, sig) = ("blast", SIGINT))
    (hnext : c.next = none) (harg : c.arg 0 = name) :
    execute os s (some c)
      = { process_list := (handle_signal_command os.kill s.process_list c sig name).process_list,
          trace := (handle_signal_command os.kill s.process_list c sig name).trace,
          ctl := Ctl.returned } := by
  have hm := signalCommands_match os.kill s.process_list c name sig hcmd harg
  have hr := handle_signal_command_ret os.kill s.process_list c sig name harg
  have hh : c.arg 0 ≠ "history" := by
    rcases hcmd with h | h | h <;> (obtain ⟨rfl, rfl⟩ := Prod.mk.inj h; rw [harg]; decide)
  have hq : c.arg 0 ≠ "quit" := by
    rcases hcmd with h | h | h <;> (obtain ⟨rfl, rfl⟩ := Prod.mk.inj h; rw [harg]; decide)
  simp [execute, hnext, hh, hq, hm, hr]

theorem execute_dispatched (os : OS) (s : Shell) (c : cmdLine) (name : String) (sig p : Int)
    (hcmd : (name, sig) = ("zzzz", SIGSTOP) ∨ (name, sig) = ("kuku", SIGCONT)
      ∨ (name, sig) = ("blast", SIGINT))
    (hd : Dispatched os c name sig p) :
    (execute os s (some c)).process_list
      = updateProcessStatus s.process_list p (new_status sig) := by
  obtain ⟨hnext, harg, hargc, hpid, hkill⟩ := hd
  rw [execute_signal os s c name sig hcmd hnext harg]
  have h2 : ¬ c.argCount < 2 := by omega
  simp [handle_signal_command, harg, h2, hpid, hkill]


theorem dispatched_status (os : OS) (s : Shell) (c : cmdLine) (name : String) (sig p : Int)
    (hcmd : (name, sig) = ("zzzz", SIGSTOP) ∨ (name, sig) = ("kuku", SIGCONT)
      ∨ (name, sig) = ("blast", SIGINT))
    (htracked : ∃ j ∈ s.process_list, j.pid = p) (hd : Dispatched os c name sig p) :
    statusOf (execute os s (some c)).process_list p = some (new_status sig) := by
  rw [execute_dispatched os s c name sig p hcmd hd]
  exact statusOf_updateProcessStatus _ _ _ htracked

/-- C4: when the registry tracks pid p and delivery succeeds, whatever the
previous state of the job of p, the suspend command `zzzz` leaves it
`SUSPENDED`, the continue command `kuku` leaves it `RUNNING` (also when it
follows a `zzzz`), and the interrupt command `blast` leaves it `TERMINATED`,
with no refresh in between. -/
theorem signal_commands_set_state (s : Shell) (p : Int)
    (htracked : ∃ j ∈ s.process_list, j.pid = p) :
    (∀ (os : OS) (c : cmdLine), Dispatched os c "zzzz" SIGSTOP p →
        statusOf (execute os s (some c)).process_list p = some SUSPENDED)
    ∧ (∀ (os : OS) (c : cmdLine), Dispatched os c "kuku" SIGCONT p →
        statusOf (execute os s (some c)).process_list p = some RUNNING)
    ∧ (∀ (os : OS) (c : cmdLine), Dispatched os c "blast" SIGINT p →
        statusOf (execute os s (some c)).process_list p = some TERMINATED)
    ∧ (∀ (os os2 : OS) (c c2 : cmdLine), Dispatched os c "zzzz" SIGSTOP p →
        Dispatched os2 c2 "kuku" SIGCONT p →
        statusOf (execute os2
          { s with process_list := (execute os s (some c)).process_list } (some c2)).process_list p
          = some RUNNING) := by
  refine ⟨?_, ?_, ?_, ?_⟩
  · intro os c hd
    exact dispatched_status os s c "zzzz" SIGSTOP p (Or.inl rfl) htracked hd
  · intro os c hd
    exact dispatched_status os s c "kuku" SIGCONT p (Or.inr (Or.inl rfl)) htracked hd
  · intro os c hd
    exact dispatched_status os s c "blast" SIGINT p (Or.inr (Or.inr rfl)) htracked hd
  · intro os os2 c c2 hd hd2
    refine dispatched_status os2 _ c2 "kuku" SIGCONT p (Or.inr (Or.inl rfl)) ?_ hd2
    show ∃ j ∈ (execute os s (some c)).process_list, j.pid = p
    rw [execute_dispatched os s c "zzzz" SIGSTOP p (Or.inl rfl) hd]
    exact updateProcessStatus_tracked _ _ _ _ htracked

theorem signal_commands_set_state_witness :
    statusOf (execute demoOS (demoShell [demoJob 8 RUNNING, demoJob 7 RUNNING])
        (some (demoCmd "zzzz" "7"))).process_list 7 = some SUSPENDED
    ∧ statusOf (execute demoOS (demoShell [demoJob 8 RUNNING, demoJob 7 RUNNING])
        (some (demoCmd "blast" "7"))).process_list 7 = some TERMINATED
    ∧ statusOf (execute demoOS (demoShell [demoJob 8 RUNNING, demoJob 7 RUNNING])
        (some (demoCmd "blast" "4294967303"))).process_list 7 = some TERMINATED := by
  have h := signal_commands_set_state (demoShell [demoJob 8 RUNNING, demoJob 7 RUNNING]) 7
    ⟨demoJob 7 RUNNING, by simp [demoShell], rfl⟩
  exact ⟨h.1 demoOS (demoCmd "zzzz" "7") ⟨rfl, rfl, by decide, by decide, by decide⟩,
    h.2.2.1 demoOS (demoCmd "blast" "7") ⟨rfl, rfl, by decide, by decide, by decide⟩,
    h.2.2.1 demoOS (demoCmd "blast" "4294967303")
      ⟨rfl, rfl, by decide, by decide, by decide⟩⟩

/-- C5: a signal command whose name matches leaves the registry unchanged on
both failure paths.  Without a pid argument (`argCount < 2`) the only action
is the missing-argument message on the error stream, so no signal is sent;
when `kill` fails the only actions are the `kill` call and its error report.
This holds for `handle_signal_command` with any signal and name, and for
`execute` on each of the three signal commands. -/
theorem signal_failure_keeps_registry (os : OS) (s : Shell) (c : cmdLine) (name : String)
    (sig : Int) (harg : c.arg 0 = name) :
    (c.argCount < 2 →
      handle_signal_command os.kill s.process_list c sig name
        = { ret := 1, process_list := s.process_list,
            trace := [Event.eprintf (name ++ ": Missing process ID.\n")] })
    ∧ (2 ≤ c.argCount → os.kill (atoi (c.arg 1)) sig = -1 →
      handle_signal_command os.kill s.process_list c sig name
        = { ret := 1, process_list := s.process_list,
            trace := [Event.kill (atoi (c.arg 1)) sig, Event.perror "kill failed"] })
    ∧ ((name, sig) = ("zzzz", SIGSTOP) ∨ (name, sig) = ("kuku", SIGCONT)
        ∨ (name, sig) = ("blast", SIGINT) → c.next = none →
      (c.argCount < 2 →
        execute os s (some c)
          = { process_list := s.process_list,
              trace := [Event.eprintf (name ++ ": Missing process ID.\n")],
              ctl := Ctl.returned })
      ∧ (2 ≤ c.argCount → os.kill (atoi (c.arg 1)) sig = -1 →
        execute os s (some c)
          = { process_list := s.process_list,
              trace := [Event.kill (atoi (c.arg 1)) sig, Event.perror "kill failed"],
              ctl := Ctl.returned })) := by
  have hmiss : c.argCount < 2 →
      handle_signal_command os.kill s.process_list c sig name
        = { ret := 1, process_list := s.process_list,
            trace := [Event.eprintf (name ++ ": Missing process ID.\n")] } := by
    intro h
    simp [handle_signal_command, harg, h]
  have hfail : 2 ≤ c.argCount → os.kill (atoi (c.arg 1)) sig = -1 →
      handle_signal_command os.kill s.process_list c sig name
        = { ret := 1, process_list := s.process_list,
            trace := [Event.kill (atoi (c.arg 1)) sig, Event.perror "kill failed"] } := by
    intro h hk
    have h2 : ¬ c.argCount < 2 := by omega
    simp [handle_signal_command, harg, h2, hk]
  refine ⟨hmiss, hfail, ?_⟩
  intro hcmd hnext
  rw [execute_signal os s c name sig hcmd hnext harg]
  constructor
  · intro h
    rw [hmiss h]
  · intro h hk
    rw [hfail h hk]

theorem signal_failure_keeps_registry_witness :
    (execute demoOS (demoShell [demoJob 7 RUNNING]) (some (demoCmd1 "zzzz"))).process_list
        = [demoJob 7 RUNNING]
    ∧ (execute demoOS (demoShell [demoJob 7 RUNNING]) (some (demoCmd1 "zzzz"))).trace
        = [Event.eprintf "zzzz: Missing process ID.\n"]
    ∧ (execute demoOSKillFails (demoShell [demoJob 7 RUNNING])
        (some (demoCmd "blast" "7"))).process_list = [demoJob 7 RUNNING]
    ∧ (execute demoOSKillFails (demoShell [demoJob 7 RUNNING])
        (some (demoCmd "blast" "7"))).trace = [Event.kill 7 SIGINT, Event.perror "kill failed"]
    ∧ (execute demoOSKillFails (demoShell [demoJob 7 RUNNING])
        (some (demoCmd "blast" "4294967303"))).trace
        = [Event.kill 7 SIGINT, Event.perror "kill failed"] := by
  have h1 := (signal_failure_keeps_registry demoOS (demoShell [demoJob 7 RUNNING])
    (demoCmd1 "zzzz") "zzzz" SIGSTOP rfl).2.2 (Or.inl rfl) rfl
  have h2 := (signal_failure_keeps_registry demoOSKillFails (demoShell [demoJob 7 RUNNING])
    (demoCmd "blast" "7") "blast" SIGINT rfl).2.2 (Or.inr (Or.inr rfl)) rfl
  have h3 := (signal_failure_keeps_registry demoOSKillFails (demoShell [demoJob 7 RUNNING])
    (demoCmd "blast" "4294967303") "blast" SIGINT rfl).2.2 (Or.inr (Or.inr rfl)) rfl
  have e1 := h1.1 (by decide)
  have e2 := h2.2 (by decide) (by decide)
  have e3 := h3.2 (by decide) (by decide)
  exact ⟨by rw [e1]; rfl, by rw [e1]; rfl, by rw [e2]; rfl, by rw [e2]; rfl,
    by rw [e3]; decide⟩


theorem getElem?_firstIdx (l : List process) (p : Int) :
    l[firstIdx l p]? = l.find? fun j => decide (j.pid = p) := by
  induction l with
  | nil => rfl
  | cons a t ih =>
    by_cases ha : a.pid = p
    · simp [firstIdx, ha]
    · simp [firstIdx, ha, ih]

theorem refreshed_first_match (probe : Nat → Probe) (l : List process) (p : Int) (j : process)
    (hj : l.find? (fun j => decide (j.pid = p)) = some j) :
    (updateProcessList probe l)[firstIdx l p]? = some (updateNode (probe (firstIdx l p)) j)
    ∧ statusOf (updateProcessList probe l) p
        = some (updateNode (probe (firstIdx l p)) j).status := by
  have hget : (updateProcessList probe l)[firstIdx l p]?
      = some (updateNode (probe (firstIdx l p)) j) := by
    rw [updateProcessList, updateProcessListFrom_getElem?, getElem?_firstIdx, hj]
    simp
  refine ⟨hget, ?_⟩
  have hidx : firstIdx (updateProcessList probe l) p = firstIdx l p := by
    have key : ∀ (n : Nat) (t : List process),
        firstIdx (updateProcessListFrom probe n t) p = firstIdx t p := by
      intro n t
      induction t generalizing n with
      | nil => rfl
      | cons a t ih => simp [updateProcessListFrom, firstIdx, updateNode_pid, ih]
    exact key 0 l
  rw [statusOf, ← getElem?_firstIdx, hidx, hget]
  rfl

theorem updateNode_running_iff (pr : Probe) (j : process) (hj : j.status = TERMINATED) :
    (updateNode pr j).status = RUNNING
      ↔ pr.result ≠ -1 ∧ pr.result ≠ 0 ∧ pr.status = WaitStatus.continued := by
  have hne : j.status ≠ RUNNING := by rw [hj]; decide
  have hne1 : ¬ j.status = 1 := hne
  by_cases h1 : pr.result = -1
  · simp [updateNode, h1, TERMINATED, RUNNING]
  · by_cases h0 : pr.result = 0
    · simp [updateNode, h0, hne]
    · cases hs : pr.status <;>
        simp [updateNode, h1, h0, hs, hne, hne1, WIFEXITED, WIFSIGNALED, WIFSTOPPED,
          WIFCONTINUED, TERMINATED, RUNNING, SUSPENDED]

theorem updateNode_suspended_iff (pr : Probe) (j : process) (hj : j.status = TERMINATED) :
    (updateNode pr j).status = SUSPENDED
      ↔ pr.result ≠ -1 ∧ pr.result ≠ 0 ∧ pr.status = WaitStatus.stopped := by
  have hne : j.status ≠ SUSPENDED := by rw [hj]; decide
  have hne1 : ¬ j.status = 0 := hne
  by_cases h1 : pr.result = -1
  · simp [updateNode, h1, TERMINATED, SUSPENDED]
  · by_cases h0 : pr.result = 0
    · simp [updateNode, h0, hne]
    · cases hs : pr.status <;>
        simp [updateNode, h1, h0, hs, hne, hne1, WIFEXITED, WIFSIGNALED, WIFSTOPPED,
          WIFCONTINUED, TERMINATED, RUNNING, SUSPENDED]

/-- The value `atoi` returns fits a 32-bit `int`. -/
theorem atoi_range (s : String) : -2147483648 ≤ atoi s ∧ atoi s < 2147483648 := by
  simp only [atoi, toInt32]
  omega

/-- C2 (as stated, refuted): job 7 is running, `blast 7` is delivered and sets
it `TERMINATED`; the process survives, so its probe returns 0 (no change to
report); the refresh then leaves the state `TERMINATED`, not `RUNNING`, and the
listing removes the job. -/
theorem interrupt_survivor_not_corrected :
    statusOf (execute demoOS (demoShell [demoJob 7 RUNNING])
        (some (demoCmd "blast" "7"))).process_list 7 = some TERMINATED
    ∧ (demoOS.probe 0).result = 0
    ∧ statusOf (updateProcessList demoOS.probe
        (execute demoOS (demoShell [demoJob 7 RUNNING])
          (some (demoCmd "blast" "7"))).process_list) 7 = some TERMINATED
    ∧ statusOf (updateProcessList demoOS.probe
        (execute demoOS (demoShell [demoJob 7 RUNNING])
          (some (demoCmd "blast" "7"))).process_list) 7 ≠ some RUNNING
    ∧ (printProcessList demoOS.probe
        (execute demoOS (demoShell [demoJob 7 RUNNING])
          (some (demoCmd "blast" "7"))).process_list).1.length = 0 := by
  refine ⟨by decide, by decide, by decide, by decide, by decide⟩

/-- C2 (amended): after a successful `blast` of a tracked pid p the job is
`TERMINATED`; if the probe that the next `updateProcessList` issues for that
job returns 0 (nothing to report, as for a process that caught the signal and
keeps running) the state stays `TERMINATED`, and the following listing prints
the job with the label Terminated and removes it; the refresh sets the state
back to `RUNNING` exactly when the probe reports a continued process, and to
`SUSPENDED` exactly when it reports a stopped one; in every other case the
state stays `TERMINATED`. -/
theorem interrupt_state_kept_until_change_reported (os : OS) (s : Shell) (c : cmdLine)
    (p : Int) (probe : Nat → Probe) (htracked : ∃ j ∈ s.process_list, j.pid = p)
    (hd : Dispatched os c "blast" SIGINT p) :
    statusOf (execute os s (some c)).process_list p = some TERMINATED
    ∧ ((probe (firstIdx (execute os s (some c)).process_list p)).result = 0 →
        statusOf (updateProcessList probe (execute os s (some c)).process_list) p
          = some TERMINATED
        ∧ ∃ j, (updateProcessList probe (execute os s (some c)).process_list)[
              firstIdx (execute os s (some c)).process_list p]? = some j
          ∧ j.pid = p ∧ j.status = TERMINATED ∧ status_str j.status = "Terminated"
          ∧ procRow j ∈ (printProcessList probe (execute os s (some c)).process_list).2
          ∧ j ∉ (printProcessList probe (execute os s (some c)).process_list).1)
    ∧ ((probe (firstIdx (execute os s (some c)).process_list p)).result ≠ -1 →
        (probe (firstIdx (execute os s (some c)).process_list p)).result ≠ 0 →
        (probe (firstIdx (execute os s (some c)).process_list p)).status
          = WaitStatus.continued →
        statusOf (updateProcessList probe (execute os s (some c)).process_list) p
          = some RUNNING)
    ∧ (statusOf (updateProcessList probe (execute os s (some c)).process_list) p = some RUNNING
        ↔ (probe (firstIdx (execute os s (some c)).process_list p)).result ≠ -1
          ∧ (probe (firstIdx (execute os s (some c)).process_list p)).result ≠ 0
          ∧ (probe (firstIdx (execute os s (some c)).process_list p)).status
              = WaitStatus.continued)
    ∧ (statusOf (updateProcessList probe (execute os s (some c)).process_list) p
          = some SUSPENDED
        ↔ (probe (firstIdx (execute os s (some c)).process_list p)).result ≠ -1
          ∧ (probe (firstIdx (execute os s (some c)).process_list p)).result ≠ 0
          ∧ (probe (firstIdx (execute os s (some c)).process_list p)).status
              = WaitStatus.stopped)
    ∧ (statusOf (updateProcessList probe (execute os s (some c)).process_list) p
          = some TERMINATED
        ∨ statusOf (updateProcessList probe (execute os s (some c)).process_list) p
          = some RUNNING
        ∨ statusOf (updateProcessList probe (execute os s (some c)).process_list) p
          = some SUSPENDED) := by
  have hst := dispatched_status os s c "blast" SIGINT p (Or.inr (Or.inr rfl)) htracked hd
  have hst2 : statusOf (execute os s (some c)).process_list p = some TERMINATED := hst
  obtain ⟨j0, hfind, hj0⟩ : ∃ j0, (execute os s (some c)).process_list.find?
      (fun j => decide (j.pid = p)) = some j0 ∧ j0.status = TERMINATED := by
    simpa [statusOf] using hst2
  have hpid0 : j0.pid = p := by
    have := List.find?_some hfind
    simpa using this
  obtain ⟨hget, hstatus⟩ := refreshed_first_match probe _ p j0 hfind
  have hrun := updateNode_running_iff
    (probe (firstIdx (execute os s (some c)).process_list p)) j0 hj0
  have hsus := updateNode_suspended_iff
    (probe (firstIdx (execute os s (some c)).process_list p)) j0 hj0
  have hval := updateNode_valid
    (probe (firstIdx (execute os s (some c)).process_list p)) j0 (Or.inl hj0)
  refine ⟨hst2, ?_, ?_, ?_, ?_, ?_⟩
  · intro h0
    have hnode : updateNode (probe (firstIdx (execute os s (some c)).process_list p)) j0 = j0 := by
      simp [updateNode, h0]
    rw [hnode] at hget hstatus
    refine ⟨by rw [hstatus, hj0], j0, hget, hpid0, hj0, by rw [hj0]; rfl, ?_, ?_⟩
    · rw [printProcessList_snd]
      exact List.mem_cons_of_mem _ (List.mem_map_of_mem _ (List.getElem?_mem hget))
    · intro hin
      rw [printProcessList_fst, List.mem_filter] at hin
      simp [hj0] at hin
  · intro h1 h0 hc
    rw [hstatus, hrun.mpr ⟨h1, h0, hc⟩]
  · rw [hstatus, Option.some_inj]
    exact hrun
  · rw [hstatus, Option.some_inj]
    exact hsus
  · rw [hstatus]
    rcases hval with h | h | h
    · exact Or.inl (by rw [h])
    · exact Or.inr (Or.inl (by rw [h]))
    · exact Or.inr (Or.inr (by rw [h]))

theorem interrupt_state_kept_until_change_reported_witness :
    statusOf (updateProcessList demoOS.probe
        (execute demoOS (demoShell [demoJob 8 RUNNING, demoJob 7 RUNNING])
          (some (demoCmd "blast" "7"))).process_list) 7 = some TERMINATED := by
  have h := interrupt_state_kept_until_change_reported demoOS
    (demoShell [demoJob 8 RUNNING, demoJob 7 RUNNING]) (demoCmd "blast" "7") 7 demoOS.probe
    ⟨demoJob 7 RUNNING, by simp [demoShell], rfl⟩ ⟨rfl, rfl, by decide, by decide, by decide⟩
  exact (h.2.1 rfl).1


theorem updateProcessStatus_valid (l : List process) (pid st : Int)
    (h : ∀ j ∈ l, validStatus j.status) (hst : validStatus st) :
    ∀ j ∈ updateProcessStatus l pid st, validStatus j.status := by
  induction l with
  | nil => simp [updateProcessStatus]
  | cons a t ih =>
    intro j hj
    by_cases ha : a.pid = pid
    · simp only [updateProcessStatus, if_pos ha, List.mem_cons] at hj
      rcases hj with rfl | hj
      · exact hst
      · exact h j (List.mem_cons_of_mem a hj)
    · simp only [updateProcessStatus, if_neg ha, List.mem_cons] at hj
      rcases hj with rfl | hj
      · exact h _ (List.mem_cons_self _ t)
      · exact ih (fun x hx => h x (List.mem_cons_of_mem a hx)) j hj

theorem new_status_valid (sig : Int) : validStatus (new_status sig) := by
  unfold new_status
  repeat' split
  all_goals first
    | exact Or.inl rfl
    | exact Or.inr (Or.inl rfl)
    | exact Or.inr (Or.inr rfl)

theorem handle_signal_command_valid (kill : Int → Int → Int) (pl : List process) (c : cmdLine)
    (sig : Int) (name : String) (h : ∀ j ∈ pl, validStatus j.status) :
    ∀ j ∈ (handle_signal_command kill pl c sig name).process_list, validStatus j.status := by
  simp only [handle_signal_command]
  split
  · split
    · exact h
    · split
      · exact h
      · exact updateProcessStatus_valid pl _ _ h (new_status_valid sig)
  · exact h

theorem printProcessList_valid (probe : Nat → Probe) (l : List process)
    (h : ∀ j ∈ l, validStatus j.status) :
    ∀ j ∈ (printProcessList probe l).1, validStatus j.status := by
  intro j hj
  rw [printProcessList_fst, List.mem_filter] at hj
  exact updateProcessListFrom_valid probe l 0 h j hj.1

/-- Every status stored in the registry stays one of the three status macros
across `execute`. -/
theorem execute_valid (os : OS) (s : Shell) (c : Option cmdLine)
    (h : ∀ j ∈ s.process_list, validStatus j.status) :
    ∀ j ∈ (execute os s c).process_list, validStatus j.status := by
  cases c with
  | none => exact h
  | some c =>
    have hsig : ∀ j ∈ (signalCommands os.kill s.process_list c).process_list,
        validStatus j.status := by
      have h1 := handle_signal_command_valid os.kill s.process_list c SIGSTOP "zzzz" h
      have h2 := handle_signal_command_valid os.kill _ c SIGCONT "kuku" h1
      have h3 := handle_signal_command_valid os.kill _ c SIGINT "blast" h2
      simp only [signalCommands]
      split
      · exact h1
      · split
        · exact h2
        · exact h3
    simp only [execute]
    split
    · exact h
    · split
      · split
        · exact h
        · split <;> exact h
      · split
        · exact h
        · split
          · exact hsig
          · split
            · exact hsig
            · split
              · exact printProcessList_valid _ _ hsig
              · split
                · exact hsig
                · split
                  · exact hsig
                  · intro j hj
                    rcases List.mem_cons.mp hj with rfl | hj
                    · exact Or.inr (Or.inl rfl)
                    · exact hsig j hj

/-! ## Theorems: pipeline -/

theorem printHistory_only_prints (h : History) (e : Event) (he : e ∈ printHistory h) :
    ∃ text, e = Event.printf text := by
  simp only [printHistory, List.mem_map] at he
  obtain ⟨row, _, hrow⟩ := he
  exact ⟨_, hrow.symm⟩

/-- C6 (as stated, refuted): for the pipeline `history > f | cat`, whose Left
command has an output redirect, `execute` reports no error: it prints the
history (here the one line just recorded) and returns. -/
theorem history_pipeline_not_rejected :
    demoHistoryPipe.next = some (demoCmd1 "cat")
    ∧ demoHistoryPipe.outputRedirect = some "f"
    ∧ (execute demoOS
        { hist := addAll History.init ["history > f | cat"], process_list := [],
          g_isDebug := false } (some demoHistoryPipe)).trace
        = [Event.printf "0: history > f | cat\n"] := by
  refine ⟨rfl, rfl, by decide⟩

/-- C6 (amended): for a command with a pipeline continuation whose Left
command has an output redirect or whose Right command has an input redirect,
`execute` creates no pipe, forks no process, leaves the process registry
unchanged and returns; when the command name is not `history`, all it does is
report the error for the offending redirect (the one of Left first). -/
theorem forbidden_pipe_redirect_rejected (os : OS) (s : Shell) (c n : cmdLine)
    (hnext : c.next = some n)
    (hred : c.outputRedirect ≠ none ∨ n.inputRedirect ≠ none) :
    (execute os s (some c)).process_list = s.process_list
    ∧ Event.pipe ∉ (execute os s (some c)).trace
    ∧ Event.fork ∉ (execute os s (some c)).trace
    ∧ (execute os s (some c)).ctl = Ctl.returned
    ∧ (c.arg 0 ≠ "history" →
        (execute os s (some c)).trace
          = [Event.eprintf (if c.outputRedirect ≠ none
              then "Error: Output redirection on left side of pipe forbidden.\n"
              else "Error: Input redirection on right side of pipe forbidden.\n")]) := by
  by_cases hh : c.arg 0 = "history"
  · have he : execute os s (some c)
        = { process_list := s.process_list, trace := printHistory s.hist,
            ctl := Ctl.returned } := by
      simp [execute, hh]
    rw [he]
    refine ⟨rfl, ?_, ?_, rfl, fun hne => absurd hh hne⟩
    · intro hin
      obtain ⟨text, ht⟩ := printHistory_only_prints _ _ hin
      cases ht
    · intro hin
      obtain ⟨text, ht⟩ := printHistory_only_prints _ _ hin
      cases ht
  · by_cases ho : c.outputRedirect = none
    · have hi : n.inputRedirect ≠ none := by
        rcases hred with h | h
        · exact absurd ho h
        · exact h
      have he : execute os s (some c)
          = { process_list := s.process_list,
              trace := [Event.eprintf
                "Error: Input redirection on right side of pipe forbidden.\n"],
              ctl := Ctl.returned } := by
        simp [execute, hh, hnext, ho, hi]
      rw [he]
      simp [ho]
    · have he : execute os s (some c)
          = { process_list := s.process_list,
              trace := [Event.eprintf
                "Error: Output redirection on left side of pipe forbidden.\n"],
              ctl := Ctl.returned } := by
        simp [execute, hh, hnext, ho]
      rw [he]
      simp [ho]

theorem forbidden_pipe_redirect_rejected_witness :
    (execute demoOS (demoShell [demoJob 7 RUNNING]) (some demoBadPipe)).process_list
        = [demoJob 7 RUNNING]
    ∧ (execute demoOS (demoShell [demoJob 7 RUNNING]) (some demoBadPipe)).trace
        = [Event.eprintf "Error: Output redirection on left side of pipe forbidden.\n"] := by
  have h := forbidden_pipe_redirect_rejected demoOS (demoShell [demoJob 7 RUNNING])
    demoBadPipe (demoCmd1 "cat") rfl (Or.inl (by decide))
  exact ⟨h.1, h.2.2.2.2 (by decide)⟩

/-- C7: when `pipe` and both `fork` calls succeed, the parent in `execute_pipe`
does exactly this, in this order, and then returns: create the pipe, fork
Left, close the write end, fork Right, close the read end, wait for Left, wait
for Right. -/
theorem execute_pipe_parent_sequence (os : OS) (c n : cmdLine) (hpipe : os.pipe ≠ -1)
    (hleft : 0 < os.fork 0) (hright : 0 < os.fork 1) :
    execute_pipe os c n
      = ([Event.pipe, Event.fork, Event.close os.pipefd.2, Event.fork,
          Event.close os.pipefd.1, Event.waitpid (os.fork 0), Event.waitpid (os.fork 1)],
        Ctl.returned) := by
  have h1 : os.fork 0 ≠ -1 := by omega
  have h2 : os.fork 0 ≠ 0 := by omega
  have h3 : os.fork 1 ≠ -1 := by omega
  have h4 : os.fork 1 ≠ 0 := by omega
  simp [execute_pipe, hpipe, h1, h2, h3, h4]

theorem execute_pipe_parent_sequence_witness :
    execute_pipe demoOS (demoCmd "ls" "-l") (demoCmd "tail" "-1")
      = ([Event.pipe, Event.fork, Event.close 4, Event.fork, Event.close 3,
          Event.waitpid 100, Event.waitpid 101], Ctl.returned) :=
  execute_pipe_parent_sequence demoOS (demoCmd "ls" "-l") (demoCmd "tail" "-1")
    (by decide) (by decide) (by decide)


end MyShell
